import Mathlib

/-!
Verification of the Doubt-Destroyer ingestion and batch-classification
pipeline (src/app.py) against its natural-language specification.

The embedding models the two control-flow-bearing functions of the source:

* `categorize_comments_robust` (app.py lines 79-170): batches the comment
  list in groups of 10, asks the remote classification service once per
  batch with up to `max_retries = 3` attempts, parses the untrusted JSON
  reply with a best-effort "smart parser", maps returned ids back onto the
  batch by Python list indexing (mutating the caller's comment dicts in
  place), sleeps 2 seconds after every failed attempt, and on the final
  failed attempt labels the whole batch "Misc".
* `get_comments` (app.py lines 69-78 and 171-194): cursor-paginated fetch
  loop that stops once the accumulated count reaches the caller's limit,
  truncates the result to the limit, and on any exception reports the
  error and returns the empty list.

The remote services are modelled as oracles: the classification service as
a function from (batch number, attempt number) to a `Response`, the comment
source as a function from page number to an optional page (`none` models a
raised exception during that request).  Python dict mutation is modelled by
threading the comment list state explicitly; `analyzed_results`, a list of
aliases into that state, is modelled as the list of mutated positions,
materialised against the final state at the end of the run.

Model restrictions (documented, not load-bearing for any claim): elements
of the service's result list are modelled as records with an optional
integer id and an optional category value; non-dict list elements and
non-integer ids (which make the Python attempt fail via an exception, like
any other malformed shape) are outside the model.
-/

namespace DoubtDestroyer

/-- A JSON-ish scalar value stored into a comment's `category` slot:
Python `None` or a string.  `res.get("category", "Misc")` yields the
string "Misc" only when the key is absent; an explicit `null` or any
string passes through verbatim. -/
inductive PyVal where
  | null : PyVal
  | str : String → PyVal
deriving DecidableEq

/-- One comment dict as built by `get_comments`: author, text, likes,
published, plus the `category` key which is absent (`none`) until
`categorize_comments_robust` mutates the dict in place. -/
structure Comment where
  author : String
  text : String
  likes : Nat
  published : String
  category : Option PyVal
deriving DecidableEq

/-- Default value used to total out-of-range list reads in the model
(never actually reached on the traced paths). -/
def dfltComment : Comment := ⟨"", "", 0, "", none⟩

/-- The author/text/likes/published projection of a comment — the fields
present before classification runs. -/
structure CommentBase where
  author : String
  text : String
  likes : Nat
  published : String
deriving DecidableEq

/-- Project a comment onto its pre-classification fields. -/
def baseOf (c : Comment) : CommentBase := ⟨c.author, c.text, c.likes, c.published⟩

/-- One element of the service's result list: optional integer id
(`none` covers both an absent and a JSON-null id, which the guard
`res.get("id") is not None` treats alike) and optional category value
(`none` = key absent). -/
structure RawResult where
  rid : Option Int
  rcat : Option PyVal
deriving DecidableEq

/-- A JSON value sitting under a key of the service's response object:
either a list of results or any non-list value.  Iterating or
truth-testing a non-list value in the source ends the attempt in the
`except` handler without appending anything, so no further structure is
needed. -/
inductive JVal where
  | jlist : List RawResult → JVal
  | jother : JVal
deriving DecidableEq

/-- Outcome of one remote classification call: `exn` models any raised
exception (rate limit, transport error, or `json.loads` failure — the
source's bare `except Exception` cannot tell them apart), `ok obj` a
successfully parsed JSON object with its keys in insertion order. -/
inductive Response where
  | exn : Response
  | ok : List (String × JVal) → Response

/-- First value under the given key, mirroring Python `key in dict` /
`dict[key]` on a dict with unique keys in insertion order. -/
def lookupKey (k : String) : List (String × JVal) → Option JVal
  | [] => none
  | (k', v) :: rest => if k' = k then some v else lookupKey k rest

/-- First list-valued field in insertion order, mirroring the source's
`for val in response_data.values(): if isinstance(val, list)` scan. -/
def firstListVal : List (String × JVal) → Option (List RawResult)
  | [] => none
  | (_, JVal.jlist l) :: _ => some l
  | (_, JVal.jother) :: rest => firstListVal rest

/-- The source's smart parser (app.py lines 127-139): take the value under
"data" if that key exists, else under "results", else the first
list-valued field.  `none` means the attempt will raise: either no list
was found, or a non-list value sat under "data"/"results" (truth-testing
or iterating it raises before anything is appended). -/
def extractList (obj : List (String × JVal)) : Option (List RawResult) :=
  match lookupKey "data" obj with
  | some (JVal.jlist l) => some l
  | some JVal.jother => none
  | none =>
    match lookupKey "results" obj with
    | some (JVal.jlist l) => some l
    | some JVal.jother => none
    | none => firstListVal obj

/-- Value stored by `full_comment["category"] = res.get("category", "Misc")`:
the string "Misc" when the key is absent, the returned value verbatim
otherwise. -/
def catValue (rcat : Option PyVal) : PyVal := rcat.getD (PyVal.str "Misc")

/-- Overwrite the `category` key of a comment dict. -/
def setCat (c : Comment) (v : PyVal) : Comment :=
  { c with category := some v }

/-- The fallback assignment `c["category"] = "Misc"`. -/
def miscify (c : Comment) : Comment := setCat c (PyVal.str "Misc")

/-- Python list indexing `batch[k]` for `-n ≤ k < n`: non-negative ids
index from the front, negative ids from the back. -/
def pyIndex (n : Nat) (k : Int) : Nat :=
  if 0 ≤ k then k.toNat else (k + (n : Int)).toNat

/-- The result-mapping loop (app.py lines 143-147) over one attempt's
extracted list.  State: current batch contents `c` and the positions
appended to `analyzed_results` so far, in order.  The boolean is false
when the loop raised `IndexError` (an id below `-len(batch)` passes the
`res["id"] < len(batch)` guard but makes `batch[res["id"]]` raise), in
which case the earlier mutations and appends persist but the attempt
fails. -/
def processList : List RawResult → List Comment → List Nat → List Comment × List Nat × Bool
  | [], c, acc => (c, acc, true)
  | res :: rest, c, acc =>
    match res.rid with
    | none => processList rest c acc
    | some k =>
      if k < (c.length : Int) then
        if -(c.length : Int) ≤ k then
          let idx := pyIndex c.length k
          processList rest (c.set idx (setCat (c.getD idx dfltComment) (catValue res.rcat))) (acc ++ [idx])
        else (c, acc, false)
      else processList rest c acc

/-- Outcome of one `try` body: `success` ends the retry loop via `break`,
`failure` lands in the `except` handler.  Both carry the batch state and
the appended positions (partial appends persist across retries). -/
inductive AttemptRes where
  | success : List Comment → List Nat → AttemptRes
  | failure : List Comment → List Nat → AttemptRes

/-- One attempt of the `try` block (app.py lines 118-150): a raised call
or parse is a failure; an extracted empty list trips `if results_list:`
and raises ("No list found in AI response"); a nonempty list is mapped
back onto the batch, succeeding iff the mapping loop completes. -/
def tryAttempt (r : Response) (c : List Comment) : AttemptRes :=
  match r with
  | Response.exn => AttemptRes.failure c []
  | Response.ok obj =>
    match extractList obj with
    | none => AttemptRes.failure c []
    | some [] => AttemptRes.failure c []
    | some l =>
      let t := processList l c []
      if t.2.2 then AttemptRes.success t.1 t.2.1 else AttemptRes.failure t.1 t.2.1

/-- Retry ceiling of the source (`max_retries = 3`). -/
def max_retries : Nat := 3

/-- The retry loop `for attempt in range(max_retries)` (app.py lines
116-158), driven by remaining fuel (`= max_retries` at entry).  On
success the loop breaks; on failure it sleeps 2 seconds, and on the last
attempt (`attempt == max_retries - 1`) overwrites the whole batch with
"Misc" and appends every position.  The event trace records each remote
call and each sleep with its duration in seconds. -/
inductive Ev where
  | call : Ev
  | sleep : ℚ → Ev
deriving DecidableEq

def runAttemptsF (r : Nat → Response) (mr : Nat) :
    Nat → Nat → List Comment → List Nat → List Ev → List Comment × List Nat × List Ev
  | 0, _, c, acc, tr => (c, acc, tr)
  | left + 1, attempt, c, acc, tr =>
    match tryAttempt (r attempt) c with
    | AttemptRes.success c' app => (c', acc ++ app, tr ++ [Ev.call])
    | AttemptRes.failure c' app =>
      let acc' := acc ++ app
      let tr' := tr ++ [Ev.call, Ev.sleep 2]
      if attempt = mr - 1 then
        (c'.map miscify, acc' ++ List.range c'.length, tr')
      else runAttemptsF r mr left (attempt + 1) c' acc' tr'

/-- The Resilient Batch Runner: drive one batch through up to
`max_retries` attempts, starting at attempt 0 with no appends and an
empty trace. -/
def runBatch (r : Nat → Response) (c : List Comment) : List Comment × List Nat × List Ev :=
  runAttemptsF r max_retries max_retries 0 c [] []

/-- Classification batch size of the source (`batch_size = 10`). -/
def batch_size : Nat := 10

/-- Grouping of `for i in range(0, len(comments), batch_size)` with
`batch = comments[i:i+batch_size]`: consecutive chunks of `batch_size`,
the last one possibly shorter. -/
def chunksAux : List Comment → List Comment → List (List Comment)
  | cur, [] => if cur.isEmpty then [] else [cur]
  | cur, x :: xs =>
    if (cur ++ [x]).length = batch_size then (cur ++ [x]) :: chunksAux [] xs
    else chunksAux (cur ++ [x]) xs

def chunksBS (l : List Comment) : List (List Comment) := chunksAux [] l

/-- Run every batch in order against the classification oracle `resp`
(batch number, attempt number ↦ response), returning the final state of
each batch's comment dicts and each batch's appended positions. -/
def runBatches (resp : Nat → Nat → Response) :
    Nat → List (List Comment) → List (List Comment) × List (List Nat)
  | _, [] => ([], [])
  | b, ch :: rest =>
    let t := runBatch (resp b) ch
    let u := runBatches resp (b + 1) rest
    (t.1 :: u.1, t.2.1 :: u.2)

/-- `analyzed_results` holds aliases of the batch's dicts; materialise the
appended positions against the batch's final state. -/
def materialize (c : List Comment) (app : List Nat) : List Comment :=
  app.map (fun i => c.getD i dfltComment)

/-- The batch classifier `categorize_comments_robust` (app.py lines
79-170) as observed by the caller: first component is the final state of
the caller's comment list (the dicts are mutated in place through the
batch slices), second component is the returned `analyzed_results`. -/
def categorize_comments_robust (resp : Nat → Nat → Response) (comments : List Comment) :
    List Comment × List Comment :=
  let t := runBatches resp 0 (chunksBS comments)
  (t.1.flatten, (List.zipWith materialize t.1 t.2).flatten)

/-- Outcome of the fetch loop of `get_comments`: normal exit with the
accumulated comments, an exception bubbling to the `except` handler, or
fuel exhaustion (the model's stand-in for divergence). -/
inductive FetchRes where
  | ok : List Comment → FetchRes
  | err : FetchRes
  | diverge : FetchRes
deriving DecidableEq

/-- The `while len(comments) < limit` pagination loop (app.py lines
76-189): fetch page `p` (a `none` page models a raised request), append
its items, continue while a continuation token exists.  Fuel bounds the
number of iterations the model will unroll. -/
def fetchLoop (pages : Nat → Option (List Comment)) (tok : Nat → Bool) (limit : Nat) :
    Nat → Nat → List Comment → FetchRes
  | 0, _, acc => if limit ≤ acc.length then FetchRes.ok acc else FetchRes.diverge
  | fuel + 1, p, acc =>
    if limit ≤ acc.length then FetchRes.ok acc
    else
      match pages p with
      | none => FetchRes.err
      | some pg =>
        let acc' := acc ++ pg
        if tok p then fetchLoop pages tok limit fuel (p + 1) acc'
        else FetchRes.ok acc'

/-- `get_comments` (app.py lines 69-78, 171-194): on normal loop exit
return `comments[:limit]` with no error indicator; on an exception show
the error (`st.error`) and return the empty list.  `none` models a run
that exceeds the fuel (divergence). -/
def get_comments (pages : Nat → Option (List Comment)) (tok : Nat → Bool)
    (limit fuel : Nat) : Option (List Comment × Bool) :=
  match fetchLoop pages tok limit fuel 0 [] with
  | FetchRes.ok l => some (l.take limit, false)
  | FetchRes.err => some ([], true)
  | FetchRes.diverge => none

/-! ### Index-flow versions of the mapping loop

The control flow of `processList` — which positions get appended, and
whether the loop completes — depends only on the extracted list and on the
batch length, not on the comment contents (a `set` never changes the
length).  The `flow` functions compute that data directly from the
response, which lets run-level bookkeeping be stated against the oracle
alone. -/

def flowIdxs (n : Nat) : List RawResult → List Nat
  | [] => []
  | res :: rest =>
    match res.rid with
    | none => flowIdxs n rest
    | some k =>
      if k < (n : Int) then
        if -(n : Int) ≤ k then pyIndex n k :: flowIdxs n rest
        else []
      else flowIdxs n rest

def flowDone (n : Nat) : List RawResult → Bool
  | [] => true
  | res :: rest =>
    match res.rid with
    | none => flowDone n rest
    | some k =>
      if k < (n : Int) then
        if -(n : Int) ≤ k then flowDone n rest
        else false
      else flowDone n rest

/-- Positions appended by one attempt, computed from the response and the
batch length. -/
def attemptIdxs (r : Response) (n : Nat) : List Nat :=
  match r with
  | Response.exn => []
  | Response.ok obj =>
    match extractList obj with
    | none => []
    | some [] => []
    | some l => flowIdxs n l

/-- Whether one attempt breaks the retry loop, computed from the response
and the batch length. -/
def attemptOk (r : Response) (n : Nat) : Bool :=
  match r with
  | Response.exn => false
  | Response.ok obj =>
    match extractList obj with
    | none => false
    | some [] => false
    | some l => flowDone n l

/-- Positions appended over a whole batch's retry loop, computed from the
oracle and the batch length. -/
def batchFlowIdxs (r : Nat → Response) (mr n : Nat) : Nat → Nat → List Nat → List Nat
  | 0, _, acc => acc
  | left + 1, attempt, acc =>
    if attemptOk (r attempt) n then acc ++ attemptIdxs (r attempt) n
    else
      let acc' := acc ++ attemptIdxs (r attempt) n
      if attempt = mr - 1 then acc' ++ List.range n
      else batchFlowIdxs r mr n left (attempt + 1) acc'

def runBatchIdxs (r : Nat → Response) (n : Nat) : List Nat :=
  batchFlowIdxs r max_retries n max_retries 0 []

/-- State, appended positions, and break flag of one attempt result. -/
def arState : AttemptRes → List Comment
  | AttemptRes.success c _ => c
  | AttemptRes.failure c _ => c

def arApp : AttemptRes → List Nat
  | AttemptRes.success _ a => a
  | AttemptRes.failure _ a => a

def arOk : AttemptRes → Bool
  | AttemptRes.success _ _ => true
  | AttemptRes.failure _ _ => false

/-- Whether a trace event is a remote call. -/
def isCall : Ev → Bool
  | Ev.call => true
  | Ev.sleep _ => false

def allowedCats : List String := ["Doubt", "Spam", "Praise", "Misc"]

/-- The comment's category slot holds one of the four taxonomy strings. -/
def AllowedCat (c : Comment) : Prop :=
  ∃ s, s ∈ allowedCats ∧ c.category = some (PyVal.str s)

/-- The result's category field, when present, is one of the four
taxonomy strings (the hypothesis under which closure can hold). -/
def rcatFour (res : RawResult) : Prop :=
  ∀ v, res.rcat = some v → ∃ s, s ∈ allowedCats ∧ v = PyVal.str s

/-- The result list an attempt would extract from a response. -/
def respResults : Response → List RawResult
  | Response.exn => []
  | Response.ok obj => (extractList obj).getD []

/-- Every recorded position is in range and points at a comment whose
category slot holds one of the four taxonomy strings. -/
def InvP (c : List Comment) (P : List Nat) : Prop :=
  ∀ i ∈ P, i < c.length ∧ AllowedCat (c.getD i dfltComment)

/-! ### Concrete inputs used by the counterexamples and witnesses -/

def cmt1 : Comment := ⟨"alice", "what is recursion?", 3, "2024-01-02", none⟩
def cmt2 : Comment := ⟨"bob", "great video", 5, "2024-01-03", none⟩
def cmt3 : Comment := ⟨"carol", "attendance", 0, "2024-01-04", none⟩
def cmt4 : Comment := ⟨"dave", "why does this work?", 2, "2024-01-05", none⟩
def cmt5 : Comment := ⟨"erin", "thanks a lot", 9, "2024-01-06", none⟩
def cmt6 : Comment := ⟨"frank", "first", 1, "2024-01-07", none⟩
def cmt7 : Comment := ⟨"grace", "op sir", 4, "2024-01-08", none⟩
def cmt8 : Comment := ⟨"heidi", "how to install?", 6, "2024-01-09", none⟩
def cmt9 : Comment := ⟨"ivan", "subscribe to me", 0, "2024-01-10", none⟩
def cmt10 : Comment := ⟨"judy", "loved it", 8, "2024-01-11", none⟩
def cmt11 : Comment := ⟨"karl", "what about edge cases?", 7, "2024-01-12", none⟩
def cmt12 : Comment := ⟨"lena", "12:30 was unclear", 2, "2024-01-13", none⟩
def cmt13 : Comment := ⟨"mara", "brilliant", 5, "2024-01-14", none⟩
def cmt14 : Comment := ⟨"nick", "is there part 2?", 3, "2024-01-15", none⟩

/-- A batch of five comments, matching the spec's index-robustness
example of a batch of size 5. -/
def five : List Comment := [cmt1, cmt2, cmt3, cmt4, cmt5]

/-- Service that answers every attempt with a result for local index 0
only, although the batch has two items. -/
def respDrop : Nat → Nat → Response :=
  fun _ _ => Response.ok [("data", JVal.jlist [⟨some 0, some (PyVal.str "Doubt")⟩])]

/-- Service that covers both indices of a two-item batch exactly once. -/
def respCover : Nat → Nat → Response :=
  fun _ _ => Response.ok [("data", JVal.jlist
    [⟨some 0, some (PyVal.str "Doubt")⟩, ⟨some 1, some (PyVal.str "Praise")⟩])]

/-- Service that labels index 0 with a string outside the taxonomy. -/
def respBanana : Nat → Nat → Response :=
  fun _ _ => Response.ok [("data", JVal.jlist [⟨some 0, some (PyVal.str "Banana")⟩])]

/-- Service whose only result carries local index -1. -/
def respNeg : Nat → Nat → Response :=
  fun _ _ => Response.ok [("data", JVal.jlist [⟨some (-1), some (PyVal.str "Spam")⟩])]

/-- Response with the result list under a nonstandard key only. -/
def respAnything : Nat → Nat → Response :=
  fun _ _ => Response.ok [("anything", JVal.jlist [⟨some 0, some (PyVal.str "Doubt")⟩])]

/-- Response carrying a non-list value under "data" next to the same
list under a nonstandard key. -/
def respShadow : Nat → Nat → Response :=
  fun _ _ => Response.ok [("data", JVal.jother),
    ("anything", JVal.jlist [⟨some 0, some (PyVal.str "Doubt")⟩])]

/-- Per-batch oracle answering every attempt with an empty result list. -/
def respEmpty : Nat → Response :=
  fun _ => Response.ok [("data", JVal.jlist [])]

/-- Comment source whose first page holds one comment and whose second
request raises. -/
def pagesC8 : Nat → Option (List Comment) :=
  fun p => if p = 0 then some [cmt12] else none

/-! ### Basic list bookkeeping -/

theorem set_getD_self (l : List α) (i : Nat) (d : α) : l.set i (l.getD i d) = l := by
  induction l generalizing i with
  | nil => rfl
  | cons x xs ih =>
    cases i with
    | zero => simp [List.getD_cons_zero]
    | succ j =>
      simp only [List.getD_cons_succ, List.set_cons_succ]
      rw [ih j]

theorem getD_map_lt (f : α → β) (l : List α) (i : Nat) (d : β)
    (d' : α) (h : i < l.length) : (l.map f).getD i d = f (l.getD i d') := by
  induction l generalizing i with
  | nil => simp at h
  | cons x xs ih =>
    cases i with
    | zero => simp [List.getD_cons_zero]
    | succ j =>
      simp only [List.length_cons, Nat.succ_lt_succ_iff] at h
      simp only [List.map_cons, List.getD_cons_succ]
      exact ih j h

theorem getD_set_self (l : List α) (i : Nat) (x : α) (d : α) (h : i < l.length) :
    (l.set i x).getD i d = x := by
  induction l generalizing i with
  | nil => simp at h
  | cons y ys ih =>
    cases i with
    | zero => simp [List.getD_cons_zero]
    | succ j =>
      simp only [List.length_cons, Nat.succ_lt_succ_iff] at h
      simp only [List.set_cons_succ, List.getD_cons_succ]
      exact ih j h

theorem getD_set_ne (l : List α) (i j : Nat) (x : α) (d : α) (h : j ≠ i) :
    (l.set i x).getD j d = l.getD j d := by
  induction l generalizing i j with
  | nil => rfl
  | cons y ys ih =>
    cases i with
    | zero =>
      cases j with
      | zero => exact absurd rfl h
      | succ j' => simp [List.getD_cons_succ]
    | succ i' =>
      cases j with
      | zero => simp [List.getD_cons_zero]
      | succ j' =>
        simp only [List.set_cons_succ, List.getD_cons_succ]
        exact ih i' j' (fun hc => h (by simp [hc]))

theorem pyIndex_lt {n : Nat} {k : Int} (h1 : k < (n : Int)) (h2 : -(n : Int) ≤ k) :
    pyIndex n k < n := by
  unfold pyIndex
  split
  · omega
  · omega

/-! ### Agreement of `processList` with its flow projection -/

theorem processList_length (l : List RawResult) (c : List Comment) (acc : List Nat) :
    (processList l c acc).1.length = c.length := by
  induction l generalizing c acc with
  | nil => rfl
  | cons res rest ih =>
    unfold processList
    cases res.rid with
    | none => exact ih c acc
    | some k =>
      by_cases h1 : k < (c.length : Int)
      · by_cases h2 : -(c.length : Int) ≤ k
        · simp only [h1, h2, if_true]
          rw [ih]
          simp
        · simp [h1, h2]
      · simp only [h1, if_false]
        exact ih c acc

theorem processList_app (l : List RawResult) (c : List Comment) (acc : List Nat) :
    (processList l c acc).2.1 = acc ++ flowIdxs c.length l := by
  induction l generalizing c acc with
  | nil => simp [processList, flowIdxs]
  | cons res rest ih =>
    unfold processList flowIdxs
    cases res.rid with
    | none => exact ih c acc
    | some k =>
      by_cases h1 : k < (c.length : Int)
      · by_cases h2 : -(c.length : Int) ≤ k
        · simp only [h1, h2, if_true]
          rw [ih]
          simp
        · simp [h1, h2]
      · simp only [h1, if_false]
        exact ih c acc

theorem processList_done (l : List RawResult) (c : List Comment) (acc : List Nat) :
    (processList l c acc).2.2 = flowDone c.length l := by
  induction l generalizing c acc with
  | nil => rfl
  | cons res rest ih =>
    unfold processList flowDone
    cases res.rid with
    | none => exact ih c acc
    | some k =>
      by_cases h1 : k < (c.length : Int)
      · by_cases h2 : -(c.length : Int) ≤ k
        · simp only [h1, h2, if_true]
          rw [ih]
          simp
        · simp [h1, h2]
      · simp only [h1, if_false]
        exact ih c acc

theorem tryAttempt_state_length (r : Response) (c : List Comment) :
    (arState (tryAttempt r c)).length = c.length := by
  cases r with
  | exn => rfl
  | ok obj =>
    simp only [tryAttempt]
    cases hx : extractList obj with
    | none => rfl
    | some l =>
      cases l with
      | nil => rfl
      | cons a as =>
        by_cases hd : (processList (a :: as) c []).2.2
        · simp [hd, arState, processList_length]
        · simp [hd, arState, processList_length]

theorem tryAttempt_app (r : Response) (c : List Comment) :
    arApp (tryAttempt r c) = attemptIdxs r c.length := by
  cases r with
  | exn => rfl
  | ok obj =>
    simp only [tryAttempt, attemptIdxs]
    cases hx : extractList obj with
    | none => rfl
    | some l =>
      cases l with
      | nil => rfl
      | cons a as =>
        by_cases hd : (processList (a :: as) c []).2.2
        · simp [hd, arApp, processList_app]
        · simp [hd, arApp, processList_app]

theorem tryAttempt_ok (r : Response) (c : List Comment) :
    arOk (tryAttempt r c) = attemptOk r c.length := by
  cases r with
  | exn => rfl
  | ok obj =>
    simp only [tryAttempt, attemptOk]
    cases hx : extractList obj with
    | none => rfl
    | some l =>
      cases l with
      | nil => rfl
      | cons a as =>
        by_cases hd : (processList (a :: as) c []).2.2
        · simp only [hd, if_true]
          rw [← processList_done (a :: as) c []]
          simp [arOk, hd]
        · simp only [hd, if_false, arOk]
          rw [← processList_done (a :: as) c []]
          simp [hd]

theorem runAttemptsF_app (r : Nat → Response) (mr : Nat) :
    ∀ (left attempt : Nat) (c : List Comment) (acc : List Nat) (tr : List Ev),
      (runAttemptsF r mr left attempt c acc tr).2.1 = batchFlowIdxs r mr c.length left attempt acc := by
  intro left
  induction left with
  | zero => intro attempt c acc tr; rfl
  | succ n ih =>
    intro attempt c acc tr
    unfold runAttemptsF batchFlowIdxs
    have hok := tryAttempt_ok (r attempt) c
    have happ := tryAttempt_app (r attempt) c
    have hlen := tryAttempt_state_length (r attempt) c
    cases hta : tryAttempt (r attempt) c with
    | success c' app =>
      rw [hta] at hok happ
      simp only [arOk] at hok
      simp only [arApp] at happ
      simp [← hok, happ]
    | failure c' app =>
      rw [hta] at hok happ hlen
      simp only [arOk] at hok
      simp only [arApp] at happ
      simp only [arState] at hlen
      simp only [← hok, Bool.false_eq_true, if_false, happ]
      by_cases hl : attempt = mr - 1
      · simp [hl, hlen]
      · simp only [hl, if_false]
        rw [ih (attempt + 1) c' (acc ++ attemptIdxs (r attempt) c.length)
          (tr ++ [Ev.call, Ev.sleep 2]), hlen]

theorem runBatch_app (r : Nat → Response) (c : List Comment) :
    (runBatch r c).2.1 = runBatchIdxs r c.length :=
  runAttemptsF_app r max_retries max_retries 0 c [] []

/-! ### Shared fallback behaviour: a batch whose three attempts all fail
cleanly ends in the all-"Misc" fallback after three calls with a constant
2-second sleep after each. -/

theorem runBatch_allFail (r : Nat → Response) (c : List Comment)
    (h : ∀ a, a < 3 → tryAttempt (r a) c = AttemptRes.failure c []) :
    runBatch r c = (c.map miscify, List.range c.length,
      [Ev.call, Ev.sleep 2, Ev.call, Ev.sleep 2, Ev.call, Ev.sleep 2]) := by
  have h0 := h 0 (by decide)
  have h1 := h 1 (by decide)
  have h2 := h 2 (by decide)
  simp [runBatch, max_retries, runAttemptsF, h0, h1, h2]

/-! ### The batch runner never touches the pre-classification fields -/

theorem map_set (f : α → β) (l : List α) (i : Nat) (x : α) :
    (l.set i x).map f = (l.map f).set i (f x) := by
  induction l generalizing i with
  | nil => rfl
  | cons y ys ih =>
    cases i with
    | zero => rfl
    | succ j => simp [List.set_cons_succ, ih]

theorem processList_base (l : List RawResult) (c : List Comment) (acc : List Nat) :
    (processList l c acc).1.map baseOf = c.map baseOf := by
  induction l generalizing c acc with
  | nil => rfl
  | cons res rest ih =>
    unfold processList
    cases res.rid with
    | none => exact ih c acc
    | some k =>
      by_cases h1 : k < (c.length : Int)
      · by_cases h2 : -(c.length : Int) ≤ k
        · simp only [h1, h2, if_true]
          rw [ih, map_set]
          have hb : baseOf (setCat (c.getD (pyIndex c.length k) dfltComment)
              (catValue res.rcat)) = baseOf (c.getD (pyIndex c.length k) dfltComment) := rfl
          rw [hb, ← getD_map_lt baseOf c (pyIndex c.length k) (baseOf dfltComment) dfltComment
            (pyIndex_lt h1 h2)]
          exact set_getD_self _ _ _
        · simp [h1, h2]
      · simp only [h1, if_false]
        exact ih c acc

theorem tryAttempt_state_base (r : Response) (c : List Comment) :
    (arState (tryAttempt r c)).map baseOf = c.map baseOf := by
  cases r with
  | exn => rfl
  | ok obj =>
    simp only [tryAttempt]
    cases hx : extractList obj with
    | none => rfl
    | some l =>
      cases l with
      | nil => rfl
      | cons a as =>
        by_cases hd : (processList (a :: as) c []).2.2
        · simp [hd, arState, processList_base]
        · simp [hd, arState, processList_base]

theorem runAttemptsF_base (r : Nat → Response) (mr : Nat) :
    ∀ (left attempt : Nat) (c : List Comment) (acc : List Nat) (tr : List Ev),
      (runAttemptsF r mr left attempt c acc tr).1.map baseOf = c.map baseOf := by
  intro left
  induction left with
  | zero => intro attempt c acc tr; rfl
  | succ n ih =>
    intro attempt c acc tr
    unfold runAttemptsF
    have hb := tryAttempt_state_base (r attempt) c
    cases hta : tryAttempt (r attempt) c with
    | success c' app =>
      rw [hta] at hb
      simpa [arState] using hb
    | failure c' app =>
      rw [hta] at hb
      simp only [arState] at hb
      by_cases hl : attempt = mr - 1
      · simp only [hl, if_true]
        calc ((c'.map miscify).map baseOf) = c'.map baseOf := by
              rw [List.map_map]
              rfl
          _ = c.map baseOf := hb
      · simp only [hl, if_false]
        rw [ih (attempt + 1) c' (acc ++ app) (tr ++ [Ev.call, Ev.sleep 2])]
        exact hb

theorem runBatch_base (r : Nat → Response) (c : List Comment) :
    (runBatch r c).1.map baseOf = c.map baseOf :=
  runAttemptsF_base r max_retries max_retries 0 c [] []

theorem runBatches_base (resp : Nat → Nat → Response) :
    ∀ (chs : List (List Comment)) (b : Nat),
      (runBatches resp b chs).1.flatten.map baseOf = chs.flatten.map baseOf := by
  intro chs
  induction chs with
  | nil => intro b; rfl
  | cons ch rest ih =>
    intro b
    simp only [runBatches, List.flatten_cons, List.map_append]
    rw [runBatch_base, ih (b + 1)]

/-! ### Chunking bookkeeping -/

theorem chunksAux_flatten (l : List Comment) :
    ∀ cur : List Comment, (chunksAux cur l).flatten = cur ++ l := by
  induction l with
  | nil =>
    intro cur
    by_cases hc : cur.isEmpty
    · simp [chunksAux, hc]
      simpa using (List.isEmpty_iff).1 hc
    · simp [chunksAux, hc]
  | cons x xs ih =>
    intro cur
    unfold chunksAux
    by_cases hl : (cur ++ [x]).length = batch_size
    · simp only [hl, if_true, List.flatten_cons]
      rw [ih []]
      simp
    · simp only [hl, if_false]
      rw [ih (cur ++ [x])]
      simp

theorem chunksBS_flatten (l : List Comment) : (chunksBS l).flatten = l := by
  simpa using chunksAux_flatten l []

/-! ### The smart parser on single-field objects, and oracle congruence -/

theorem extract_single (key : String) (l : List RawResult) :
    extractList [(key, JVal.jlist l)] = some l := by
  by_cases hd : key = "data"
  · simp [extractList, lookupKey, hd]
  · by_cases hr : key = "results"
    · simp [extractList, lookupKey, hd, hr]
    · simp [extractList, lookupKey, hd, hr, firstListVal]

theorem runAttemptsF_congr (r r' : Nat → Response)
    (h : ∀ a c, tryAttempt (r a) c = tryAttempt (r' a) c) (mr : Nat) :
    ∀ (left attempt : Nat) (c : List Comment) (acc : List Nat) (tr : List Ev),
      runAttemptsF r mr left attempt c acc tr = runAttemptsF r' mr left attempt c acc tr := by
  intro left
  induction left with
  | zero => intro attempt c acc tr; rfl
  | succ n ih =>
    intro attempt c acc tr
    unfold runAttemptsF
    rw [h attempt c]
    cases tryAttempt (r' attempt) c with
    | success c' app => rfl
    | failure c' app =>
      by_cases hl : attempt = mr - 1
      · simp [hl]
      · simp only [hl, if_false]
        exact ih (attempt + 1) c' (acc ++ app) (tr ++ [Ev.call, Ev.sleep 2])

/-! ### Output-length bookkeeping for the whole run -/

theorem runBatches_out_length (resp : Nat → Nat → Response) :
    ∀ (chs : List (List Comment)) (b : Nat),
      (∀ i, i < chs.length →
        (runBatchIdxs (resp (b + i)) ((chs.getD i []).length)).length = (chs.getD i []).length) →
      ((List.zipWith materialize (runBatches resp b chs).1 (runBatches resp b chs).2).flatten).length
        = chs.flatten.length := by
  intro chs
  induction chs with
  | nil => intro b _; rfl
  | cons ch rest ih =>
    intro b h
    simp only [runBatches, List.zipWith_cons_cons, List.flatten_cons, List.length_append]
    have h0 : (runBatchIdxs (resp b) ch.length).length = ch.length := by
      have hh := h 0 (by simp)
      simpa using hh
    have hm : (materialize (runBatch (resp b) ch).1 (runBatch (resp b) ch).2.1).length
        = ch.length := by
      simp [materialize, runBatch_app, h0]
    rw [hm, ih (b + 1) ?_]
    intro i hi
    have hh := h (i + 1) (by simpa using Nat.succ_lt_succ hi)
    have e : b + (i + 1) = b + 1 + i := by omega
    rw [e] at hh
    simpa using hh

/-! ### Category values flowing into the output -/

theorem catValue_allowed {res : RawResult} (h : rcatFour res) :
    ∃ s, s ∈ allowedCats ∧ catValue res.rcat = PyVal.str s := by
  cases hc : res.rcat with
  | none =>
    refine ⟨"Misc", by simp [allowedCats], ?_⟩
    simp [hc, catValue]
  | some v =>
    obtain ⟨s, hs, hv⟩ := h v hc
    exact ⟨s, hs, by simp [hc, catValue, hv]⟩

theorem processList_inv (l : List RawResult) :
    ∀ (c : List Comment) (acc : List Nat),
      (∀ res ∈ l, rcatFour res) → InvP c acc →
      InvP (processList l c acc).1 (processList l c acc).2.1 := by
  induction l with
  | nil => intro c acc _ hP; exact hP
  | cons res rest ih =>
    intro c acc hres hP
    unfold processList
    cases hr : res.rid with
    | none => exact ih c acc (fun r hr' => hres r (List.mem_cons_of_mem _ hr')) hP
    | some k =>
      by_cases h1 : k < (c.length : Int)
      · by_cases h2 : -(c.length : Int) ≤ k
        · simp only [h1, h2, if_true]
          have hidx : pyIndex c.length k < c.length := pyIndex_lt h1 h2
          have hcat : AllowedCat (setCat (c.getD (pyIndex c.length k) dfltComment)
              (catValue res.rcat)) := by
            obtain ⟨s, hs, hv⟩ := catValue_allowed (hres res (List.mem_cons_self _ _))
            exact ⟨s, hs, by simp [setCat, hv]⟩
          apply ih _ _ (fun r hr' => hres r (List.mem_cons_of_mem _ hr'))
          intro i hi
          rcases List.mem_append.1 hi with hiacc | hinew
          · obtain ⟨hilt, hic⟩ := hP i hiacc
            refine ⟨by simpa using hilt, ?_⟩
            by_cases hie : i = pyIndex c.length k
            · rw [hie, getD_set_self _ _ _ _ hidx]
              exact hcat
            · rw [getD_set_ne _ _ _ _ _ hie]
              exact hic
          · have hie : i = pyIndex c.length k := by simpa using hinew
            refine ⟨by simpa [hie] using hidx, ?_⟩
            rw [hie, getD_set_self _ _ _ _ hidx]
            exact hcat
        · simp only [h1, h2, if_true, if_false]
          exact hP
      · simp only [h1, if_false]
        exact ih c acc (fun r hr' => hres r (List.mem_cons_of_mem _ hr')) hP

theorem processList_state (l : List RawResult) :
    ∀ (c : List Comment) (acc acc' : List Nat),
      (processList l c acc).1 = (processList l c acc').1 := by
  induction l with
  | nil => intro c acc acc'; rfl
  | cons res rest ih =>
    intro c acc acc'
    unfold processList
    cases res.rid with
    | none => exact ih c acc acc'
    | some k =>
      by_cases h1 : k < (c.length : Int)
      · by_cases h2 : -(c.length : Int) ≤ k
        · simp only [h1, h2, if_true]
          exact ih _ _ _
        · simp [h1, h2]
      · simp only [h1, if_false]
        exact ih c acc acc'

theorem tryAttempt_inv (r : Response) (c : List Comment) (P : List Nat)
    (hres : ∀ res ∈ respResults r, rcatFour res) (hP : InvP c P) :
    InvP (arState (tryAttempt r c)) (P ++ arApp (tryAttempt r c)) := by
  cases r with
  | exn => simpa [tryAttempt, arState, arApp] using hP
  | ok obj =>
    simp only [tryAttempt]
    cases hx : extractList obj with
    | none => simpa [arState, arApp] using hP
    | some l =>
      cases l with
      | nil => simpa [arState, arApp] using hP
      | cons a as =>
        have hres' : ∀ res ∈ (a :: as), rcatFour res := by
          intro res hmem
          apply hres
          simp [respResults, hx, hmem]
        have key := processList_inv (a :: as) c P hres' hP
        have hs : (processList (a :: as) c []).1 = (processList (a :: as) c P).1 :=
          processList_state (a :: as) c [] P
        have ha : (processList (a :: as) c []).2.1 = flowIdxs c.length (a :: as) := by
          simpa using processList_app (a :: as) c []
        have ha' : (processList (a :: as) c P).2.1 = P ++ flowIdxs c.length (a :: as) :=
          processList_app (a :: as) c P
        rw [ha'] at key
        by_cases hd : (processList (a :: as) c []).2.2
        · simp only [hd, if_true, arState, arApp]
          rw [hs, ha]
          exact key
        · simp only [hd, if_false, arState, arApp]
          rw [hs, ha]
          exact key

theorem runAttemptsF_inv (r : Nat → Response) (mr : Nat)
    (hres : ∀ a, ∀ res ∈ respResults (r a), rcatFour res) :
    ∀ (left attempt : Nat) (c : List Comment) (acc : List Nat) (tr : List Ev),
      InvP c acc →
      InvP (runAttemptsF r mr left attempt c acc tr).1
        (runAttemptsF r mr left attempt c acc tr).2.1 := by
  intro left
  induction left with
  | zero => intro attempt c acc tr hP; exact hP
  | succ n ih =>
    intro attempt c acc tr hP
    unfold runAttemptsF
    have key := tryAttempt_inv (r attempt) c acc (hres attempt) hP
    cases hta : tryAttempt (r attempt) c with
    | success c' app =>
      rw [hta] at key
      simpa [arState, arApp] using key
    | failure c' app =>
      rw [hta] at key
      simp only [arState, arApp] at key
      by_cases hl : attempt = mr - 1
      · simp only [hl, if_true]
        intro i hi
        have hmisc : ∀ j, j < c'.length →
            j < (c'.map miscify).length ∧
              AllowedCat ((c'.map miscify).getD j dfltComment) := by
          intro j hj
          refine ⟨by simpa using hj, ?_⟩
          rw [getD_map_lt miscify c' j dfltComment dfltComment hj]
          exact ⟨"Misc", by simp [allowedCats], rfl⟩
        rcases List.mem_append.1 hi with hiacc | hirange
        · exact hmisc i (key i hiacc).1
        · exact hmisc i (List.mem_range.1 hirange)
      · simp only [hl, if_false]
        exact ih (attempt + 1) c' (acc ++ app) (tr ++ [Ev.call, Ev.sleep 2]) key

theorem runBatch_inv (r : Nat → Response) (c : List Comment)
    (hres : ∀ a, ∀ res ∈ respResults (r a), rcatFour res) :
    InvP (runBatch r c).1 (runBatch r c).2.1 :=
  runAttemptsF_inv r max_retries hres max_retries 0 c [] [] (fun i hi => by simp at hi)

theorem runBatches_allowed (resp : Nat → Nat → Response)
    (hres : ∀ b a, ∀ res ∈ respResults (resp b a), rcatFour res) :
    ∀ (chs : List (List Comment)) (b : Nat),
      ∀ o ∈ (List.zipWith materialize (runBatches resp b chs).1 (runBatches resp b chs).2).flatten,
        AllowedCat o := by
  intro chs
  induction chs with
  | nil => intro b o ho; simp [runBatches] at ho
  | cons ch rest ih =>
    intro b o ho
    simp only [runBatches, List.zipWith_cons_cons, List.flatten_cons, List.mem_append] at ho
    rcases ho with hleft | hright
    · obtain ⟨i, hi, rfl⟩ := List.mem_map.1 hleft
      exact (runBatch_inv (resp b) ch (hres b) i hi).2
    · exact ih (b + 1) o hright

/-! ### Fetch-loop halting and overshoot bound -/

theorem fetchLoop_halts (pages : Nat → Option (List Comment)) (tok : Nat → Bool) (limit : Nat)
    (hp : ∀ q, ∃ pg, pages q = some pg ∧ pg ≠ [] ∧ pg.length ≤ 100) :
    ∀ (fuel p : Nat) (acc : List Comment), limit ≤ acc.length + fuel →
      ∃ r, fetchLoop pages tok limit fuel p acc = FetchRes.ok r ∧
        r.length ≤ max acc.length (limit + 99) := by
  intro fuel
  induction fuel with
  | zero =>
    intro p acc h
    refine ⟨acc, ?_, le_max_left _ _⟩
    have : limit ≤ acc.length := by omega
    simp [fetchLoop, this]
  | succ n ih =>
    intro p acc h
    unfold fetchLoop
    by_cases ha : limit ≤ acc.length
    · exact ⟨acc, by simp [ha], le_max_left _ _⟩
    · obtain ⟨pg, hpg, hne, hlen⟩ := hp p
      rw [if_neg ha, hpg]
      have hne' : 1 ≤ pg.length := List.length_pos.2 hne
      have hacc' : (acc ++ pg).length ≤ limit + 99 := by
        simp only [List.length_append]
        omega
      cases htok : tok p with
      | true =>
        simp only [if_true]
        obtain ⟨r, hr, hb⟩ := ih (p + 1) (acc ++ pg) (by simp only [List.length_append]; omega)
        refine ⟨r, hr, ?_⟩
        have hb2 : r.length ≤ limit + 99 := le_trans hb (max_le hacc' (le_refl _))
        exact le_trans hb2 (le_max_right _ _)
      | false =>
        simp only [Bool.false_eq_true, if_false]
        exact ⟨acc ++ pg, rfl, le_trans hacc' (le_max_right _ _)⟩

/-! ## Claim theorems -/

/-- Claim C1, counterexample: with two input comments in one attempted
batch and a service reply listing only local index 0, the run returns a
single classified comment — the item with no returned result is dropped,
so the output count (1) differs from the input count (2). -/
theorem c1_counterexample :
    (categorize_comments_robust respDrop [cmt1, cmt2]).2.length = 1 ∧
      ([cmt1, cmt2] : List Comment).length = 2 := by
  constructor
  · decide
  · decide

/-- Claim C1, amended: the output count equals the input count exactly
when, for every attempted batch, the positions recorded by the retry
loop (accepted results, plus the all-"Misc" fallback when every attempt
fails) hit each batch index exactly once.  An index absent from the
service's reply drops the item and a duplicated index emits it twice, so
this coverage condition is what the code actually guarantees totality
under. -/
theorem c1_total_when_each_index_covered_once (resp : Nat → Nat → Response)
    (comments : List Comment)
    (h : ∀ b, b < (chunksBS comments).length →
      (runBatchIdxs (resp b) (((chunksBS comments).getD b []).length)).Perm
        (List.range (((chunksBS comments).getD b []).length))) :
    (categorize_comments_robust resp comments).2.length = comments.length := by
  have hlen : ∀ i, i < (chunksBS comments).length →
      (runBatchIdxs (resp (0 + i)) (((chunksBS comments).getD i []).length)).length
        = ((chunksBS comments).getD i []).length := by
    intro i hi
    rw [Nat.zero_add]
    have hp := (h i hi).length_eq
    simpa [List.length_range] using hp
  have h2 := runBatches_out_length resp (chunksBS comments) 0 hlen
  rw [chunksBS_flatten] at h2
  simpa [categorize_comments_robust] using h2

/-- Claim C1, witness: a two-item batch whose reply covers indices 0 and
1 exactly once satisfies the coverage hypothesis, and the output count
equals the input count. -/
theorem c1_witness :
    (categorize_comments_robust respCover [cmt1, cmt2]).2.length
      = ([cmt1, cmt2] : List Comment).length := by
  apply c1_total_when_each_index_covered_once
  intro b hb
  have hl : (chunksBS [cmt1, cmt2]).length = 1 := by decide
  rw [hl] at hb
  have hb0 : b = 0 := Nat.lt_one_iff.1 hb
  subst hb0
  decide

/-- Claim C2, counterexample: when the service labels index 0 with the
string "Banana", the code stores it verbatim — the output's category is
"Banana", which is not one of the four taxonomy values. -/
theorem c2_counterexample :
    (categorize_comments_robust respBanana [cmt3]).2 = [setCat cmt3 (PyVal.str "Banana")] ∧
      "Banana" ∉ allowedCats := by
  constructor
  · decide
  · decide

/-- Claim C2, amended: category closure holds exactly under the
hypothesis that every result the parser extracts from any response
carries, when present, one of the four taxonomy strings.  The code
writes the service's category value verbatim (defaulting to "Misc" only
when the field is absent or the whole batch fell back), so under that
hypothesis every output comment's category is one of the four values. -/
theorem c2_closure_when_service_well_labeled (resp : Nat → Nat → Response)
    (comments : List Comment)
    (h : ∀ b a, ∀ res ∈ respResults (resp b a), rcatFour res) :
    ∀ o ∈ (categorize_comments_robust resp comments).2, AllowedCat o := by
  intro o ho
  exact runBatches_allowed resp h (chunksBS comments) 0 o
    (by simpa [categorize_comments_robust] using ho)

/-- Claim C2, witness: with a two-item batch labeled "Doubt"/"Praise",
the first output comment's category is among the four values. -/
theorem c2_witness : AllowedCat (setCat cmt1 (PyVal.str "Doubt")) := by
  apply c2_closure_when_service_well_labeled respCover [cmt1, cmt2] ?_ _ ?_
  · intro b a res hres
    have hmem : res = ⟨some 0, some (PyVal.str "Doubt")⟩ ∨
        res = ⟨some 1, some (PyVal.str "Praise")⟩ := by
      simpa [respResults, respCover, extractList, lookupKey] using hres
    intro v hv
    rcases hmem with rfl | rfl
    · obtain rfl : v = PyVal.str "Doubt" := (Option.some.inj hv).symm
      exact ⟨"Doubt", by simp [allowedCats], rfl⟩
    · obtain rfl : v = PyVal.str "Praise" := (Option.some.inj hv).symm
      exact ⟨"Praise", by simp [allowedCats], rfl⟩
  · decide

/-- Claim C3, counterexample: with a service that always raises the
rate-limit signal, the single-batch trace sleeps a constant 2 seconds
after each of the three attempts; the first wait (attempt 0) is 2
seconds, which no jitter in [0,1) can write as 2^0 + jitter. -/
theorem c3_counterexample :
    (runBatch (fun _ => Response.exn) [cmt4]).2.2 =
      [Ev.call, Ev.sleep 2, Ev.call, Ev.sleep 2, Ev.call, Ev.sleep 2] ∧
      ¬ ∃ j : ℚ, 0 ≤ j ∧ j < 1 ∧ (2 : ℚ) = 2 ^ (0 : Nat) + j := by
  constructor
  · rfl
  · rintro ⟨j, h0, h1, h2⟩
    rw [pow_zero] at h2
    linarith

/-- Claim C3, amended: with a service that always raises, the runner
performs exactly `max_retries = 3` attempts (3 lies in the claimed 3-5
range) and never more, waits a constant 2 seconds after each failed
attempt instead of 2^attempt + jitter, and then assigns "Misc" to the
entire batch. -/
theorem c3_constant_backoff_three_attempts (r : Nat → Response) (c : List Comment)
    (h : ∀ a, a < 3 → r a = Response.exn) :
    runBatch r c = (c.map miscify, List.range c.length,
      [Ev.call, Ev.sleep 2, Ev.call, Ev.sleep 2, Ev.call, Ev.sleep 2]) := by
  apply runBatch_allFail
  intro a ha
  rw [h a ha]
  rfl

/-- Claim C3, witness: the always-raising service on a one-item batch. -/
theorem c3_witness :
    runBatch (fun _ => Response.exn) [cmt5] = ([cmt5].map miscify, List.range 1,
      [Ev.call, Ev.sleep 2, Ev.call, Ev.sleep 2, Ev.call, Ev.sleep 2]) := by
  have h := c3_constant_backoff_three_attempts (fun _ => Response.exn) [cmt5]
    (fun a _ => rfl)
  simpa using h

/-- Claim C4, counterexample: the source's bare `except Exception` cannot
distinguish a non-rate-limit error from a rate-limit one, so a batch
whose every attempt raises (of any kind, including `ClassificationError`)
is retried: the trace holds 3 remote calls, not the 1 call that "zero
retries" would give. -/
theorem c4_counterexample :
    ((runBatch (fun _ => Response.exn) [cmt6]).2.2.countP isCall) = 3 ∧ (3 : Nat) ≠ 1 := by
  constructor
  · decide
  · decide

/-- Claim C4, amended: every kind of attempt failure — raised call,
unparseable body, shadowed or missing or empty result list — is retried
uniformly: a batch whose three attempts all fail performs exactly 3
remote calls (no immediate fallback), and the final output for the batch
is every item labeled "Misc" (the model's comments carry no topic field,
as the source never sets one). -/
theorem c4_all_errors_retried_then_misc (r : Nat → Response) (c : List Comment)
    (h : ∀ a, a < 3 → tryAttempt (r a) c = AttemptRes.failure c []) :
    (runBatch r c).1 = c.map miscify ∧ (runBatch r c).2.1 = List.range c.length ∧
      ((runBatch r c).2.2.countP isCall) = 3 := by
  have hb := runBatch_allFail r c h
  rw [hb]
  exact ⟨rfl, rfl, rfl⟩

/-- Claim C4, witness: the always-raising service on a one-item batch. -/
theorem c4_witness :
    (runBatch (fun _ => Response.exn) [cmt7]).1 = [cmt7].map miscify ∧
      (runBatch (fun _ => Response.exn) [cmt7]).2.1 = List.range ([cmt7] : List Comment).length ∧
      ((runBatch (fun _ => Response.exn) [cmt7]).2.2.countP isCall) = 3 :=
  c4_all_errors_retried_then_misc (fun _ => Response.exn) [cmt7] (fun _ _ => rfl)

/-- Claim C5, counterexample: a reply whose only result carries local
index -1 for a batch of two is not discarded: Python indexing maps it
onto the last item, which is emitted labeled "Spam", while the item at
index 0 gets no output at all (it is dropped, not labeled "Misc"). -/
theorem c5_counterexample :
    (categorize_comments_robust respNeg [cmt8, cmt9]).2 = [setCat cmt9 (PyVal.str "Spam")] := by
  decide

/-- Claim C5, amended: a returned result whose index is at least the
batch size (e.g. 7 for a batch of 5) is discarded without crashing — the
mapping loop treats the list exactly as if that result were absent.
Negative indices, however, wrap around Python-style onto items from the
end, and batch items with no accepted result are dropped rather than
falling back to "Misc" (unless every attempt fails). -/
theorem c5_high_index_discarded (k : Int) (rc : Option PyVal) (rest : List RawResult)
    (c : List Comment) (acc : List Nat) (hk : (c.length : Int) ≤ k) :
    processList (⟨some k, rc⟩ :: rest) c acc = processList rest c acc := by
  have hnk : ¬ (k < (c.length : Int)) := not_lt.2 hk
  simp only [processList]
  simp [hnk]

/-- Claim C5, witness: index 7 against the five-comment batch. -/
theorem c5_witness :
    processList [⟨some 7, some (PyVal.str "Doubt")⟩] five [] = processList [] five [] :=
  c5_high_index_discarded 7 (some (PyVal.str "Doubt")) [] five [] (by decide)

/-- Claim C6, counterexample: two responses with the same valid
single-result list — one as the object's only field "anything", one with
an extra non-list "data" field — do not parse identically: the first
classifies the comment "Doubt", while in the second the non-list "data"
value shadows the list, every attempt fails, and the comment falls back
to "Misc".  So parsing can fail even though a list-valued field exists. -/
theorem c6_counterexample :
    (categorize_comments_robust respAnything [cmt10]).2 = [setCat cmt10 (PyVal.str "Doubt")] ∧
      (categorize_comments_robust respShadow [cmt10]).2 = [miscify cmt10] ∧
      [setCat cmt10 (PyVal.str "Doubt")] ≠ [miscify cmt10] := by
  refine ⟨by decide, by decide, by decide⟩

/-- Claim C6, amended: a response whose single field holds the result
list parses to that list whatever the field's name — "data", "results"
or anything else — and the batch runner behaves identically on all of
them; but parsing fails not only when no list-valued field exists: an
empty extracted list, or a non-list value under "data"/"results"
shadowing another list-valued field, also fails the attempt. -/
theorem c6_single_list_field_parses_uniformly (key : String) (l : List RawResult)
    (c : List Comment) :
    extractList [(key, JVal.jlist l)] = some l ∧
      runBatch (fun _ => Response.ok [(key, JVal.jlist l)]) c =
        runBatch (fun _ => Response.ok [("data", JVal.jlist l)]) c := by
  refine ⟨extract_single key l, ?_⟩
  unfold runBatch
  apply runAttemptsF_congr
  intro a c'
  show tryAttempt (Response.ok [(key, JVal.jlist l)]) c'
      = tryAttempt (Response.ok [("data", JVal.jlist l)]) c'
  simp only [tryAttempt, extract_single]

/-- Claim C7, confirmed: against any source whose pages are nonempty and
honor the requested page size of 100 (cursor behaviour arbitrary,
including returning a cursor forever), the fetch loop halts within
`limit` iterations of fuel, the fetched count is at most
`limit + 100 - 1`, and the returned list `comments[:limit]` has at most
`limit` items. -/
theorem c7_pagination_halts_within_one_page (pages : Nat → Option (List Comment))
    (tok : Nat → Bool) (limit : Nat)
    (hp : ∀ q, ∃ pg, pages q = some pg ∧ pg ≠ [] ∧ pg.length ≤ 100) :
    ∃ fetched, fetchLoop pages tok limit limit 0 [] = FetchRes.ok fetched ∧
      fetched.length ≤ limit + 99 ∧
      get_comments pages tok limit limit = some (fetched.take limit, false) ∧
      (fetched.take limit).length ≤ limit := by
  obtain ⟨r, hr, hb⟩ := fetchLoop_halts pages tok limit hp limit 0 [] (by simp)
  refine ⟨r, hr, ?_, ?_, ?_⟩
  · simpa using hb
  · simp [get_comments, hr]
  · rw [List.length_take]
    exact Nat.min_le_left _ _

/-- Claim C7, witness: a source with an endless cursor and one-comment
pages, limit 2. -/
theorem c7_witness :
    ∃ fetched, fetchLoop (fun _ => some [cmt11]) (fun _ => true) 2 2 0 [] = FetchRes.ok fetched ∧
      fetched.length ≤ 2 + 99 ∧
      get_comments (fun _ => some [cmt11]) (fun _ => true) 2 2 = some (fetched.take 2, false) ∧
      (fetched.take 2).length ≤ 2 :=
  c7_pagination_halts_within_one_page (fun _ => some [cmt11]) (fun _ => true) 2
    (fun _ => ⟨[cmt11], rfl, by decide, by decide⟩)

/-- Claim C8, counterexample: the first page delivers one comment, the
second request raises — and the run returns the empty list with the
error indicator, discarding the accumulated comment instead of
returning it. -/
theorem c8_counterexample :
    pagesC8 0 = some [cmt12] ∧
      get_comments pagesC8 (fun _ => true) 2 5 = some ([], true) := by
  constructor
  · rfl
  · rfl

/-- Claim C8, amended: every run of `get_comments` either diverges (fuel
exhaustion), succeeds without the failure indicator, or fails with the
indicator and the EMPTY list — a failing run never returns the partial
results accumulated before the failure. -/
theorem c8_failure_rolls_back_to_empty (pages : Nat → Option (List Comment))
    (tok : Nat → Bool) (limit fuel : Nat) :
    get_comments pages tok limit fuel = none ∨
      (∃ l, get_comments pages tok limit fuel = some (l, false)) ∨
      get_comments pages tok limit fuel = some ([], true) := by
  unfold get_comments
  cases h : fetchLoop pages tok limit fuel 0 [] with
  | ok l => exact Or.inr (Or.inl ⟨l.take limit, rfl⟩)
  | err => exact Or.inr (Or.inr rfl)
  | diverge => exact Or.inl rfl

/-- Claim C9, counterexample: after a fully-failing run on one comment,
the caller's comment list state differs from the input — the dict was
mutated in place with `category = "Misc"` — so the output is not
"constructed without modifying the caller's input objects". -/
theorem c9_counterexample :
    (categorize_comments_robust (fun _ _ => Response.exn) [cmt13]).1 = [miscify cmt13] ∧
      [miscify cmt13] ≠ ([cmt13] : List Comment) := by
  constructor
  · decide
  · decide

/-- Claim C9, amended: classification never changes any input comment's
author, text, likes or published fields — position by position the
pre-classification projection of the final state equals that of the
input — but the caller's dicts are mutated in place through the added
category key, so the objects themselves are not left unmodified. -/
theorem c9_base_fields_preserved (resp : Nat → Nat → Response) (comments : List Comment) :
    (categorize_comments_robust resp comments).1.map baseOf = comments.map baseOf := by
  have hbase := runBatches_base resp (chunksBS comments) 0
  rw [chunksBS_flatten] at hbase
  simpa [categorize_comments_robust] using hbase

/-- Claim C10, confirmed: a response that parses but yields an empty
result list (e.g. an object whose "data" field is the empty list) is
treated exactly like a malformed response: the batch behaves identically
to one whose every attempt raises — three calls, a 2-second sleep after
each, and every item of the batch assigned "Misc". -/
theorem c10_empty_list_treated_as_malformed (r : Nat → Response) (c : List Comment)
    (h : ∀ a, a < 3 → ∃ obj, r a = Response.ok obj ∧ extractList obj = some []) :
    runBatch r c = runBatch (fun _ => Response.exn) c ∧
      runBatch r c = (c.map miscify, List.range c.length,
        [Ev.call, Ev.sleep 2, Ev.call, Ev.sleep 2, Ev.call, Ev.sleep 2]) := by
  have hfail : ∀ a, a < 3 → tryAttempt (r a) c = AttemptRes.failure c [] := by
    intro a ha
    obtain ⟨obj, hobj, hx⟩ := h a ha
    rw [hobj]
    simp [tryAttempt, hx]
  have h1 := runBatch_allFail r c hfail
  have h2 := runBatch_allFail (fun _ => Response.exn) c (fun _ _ => rfl)
  exact ⟨h1.trans h2.symm, h1⟩

/-- Claim C10, witness: the constant `{"data": []}` service on a
one-item batch. -/
theorem c10_witness :
    runBatch respEmpty [cmt14] = runBatch (fun _ => Response.exn) [cmt14] ∧
      runBatch respEmpty [cmt14] = ([cmt14].map miscify, List.range ([cmt14] : List Comment).length,
        [Ev.call, Ev.sleep 2, Ev.call, Ev.sleep 2, Ev.call, Ev.sleep 2]) :=
  c10_empty_list_treated_as_malformed respEmpty [cmt14]
    (fun _ _ => ⟨[("data", JVal.jlist [])], rfl, rfl⟩)

end DoubtDestroyer
